import Mathlib

/-!
Verification of the safe-socket relay server (`src/server.js`).

The development shallowly embeds the parts of the server the specification
talks about: the tenant-namespaced room naming helpers, tenant
normalization, the handshake identity construction, the room joins
performed on connection, the per-socket fixed-window rate limiter, and the
`message` event handler (payload validation, authorization, destination
resolution, broadcast and acknowledgment).  JavaScript values that flow
through dynamically-typed claim fields are modelled by an explicit
`JsValue` type; JavaScript template interpolation of integers is modelled
by an executable decimal printer.
-/

namespace SafeSocket

/-- Decimal digits of a natural number, least significant digit first, with
explicit structural fuel (any fuel `≥ n` computes the digits of `n`).
Returns `[]` for `0`. -/
def digitsRevFuel : Nat → Nat → List Char
  | _, 0 => []
  | 0, _+1 => []
  | f+1, n+1 => Nat.digitChar ((n+1) % 10) :: digitsRevFuel f ((n+1) / 10)

/-- Decimal digits of `n`, least significant first (`[]` for `0`). -/
def natDigits (n : Nat) : List Char := digitsRevFuel n n

/-- Most-significant-first decimal digit list of `n`, with `"0"` for zero —
the character content of JavaScript number stringification for a
nonnegative integer. -/
def digitsOf (n : Nat) : List Char :=
  if n = 0 then ['0'] else (natDigits n).reverse

/-- Decimal rendering of a natural number, as produced by JavaScript
template interpolation of a nonnegative integer. -/
def natStr (n : Nat) : String := String.mk (digitsOf n)

/-- Decimal rendering of an integer, as produced by JavaScript template
interpolation (a leading minus sign for negative values). -/
def intStr (i : Int) : String :=
  if i < 0 then "-" ++ natStr i.natAbs else natStr i.natAbs

theorem digitsRevFuel_zero (f : Nat) : digitsRevFuel f 0 = [] := by
  cases f <;> rfl

theorem digitsRevFuel_irrel (n : Nat) : ∀ f₁ f₂, n ≤ f₁ → n ≤ f₂ →
    digitsRevFuel f₁ n = digitsRevFuel f₂ n := by
  induction n using Nat.strong_induction_on with
  | _ n ih =>
    intro f₁ f₂ hf₁ hf₂
    cases n with
    | zero => rw [digitsRevFuel_zero, digitsRevFuel_zero]
    | succ m =>
      cases f₁ with
      | zero => omega
      | succ g₁ =>
        cases f₂ with
        | zero => omega
        | succ g₂ =>
          simp only [digitsRevFuel]
          congr 1
          have hdiv : (m+1)/10 < m+1 := Nat.div_lt_self (Nat.succ_pos m) (by norm_num)
          exact ih ((m+1)/10) hdiv g₁ g₂ (by omega) (by omega)

theorem natDigits_succ (n : Nat) :
    natDigits (n+1) = Nat.digitChar ((n+1) % 10) :: natDigits ((n+1)/10) := by
  have hdiv : (n+1)/10 < n+1 := Nat.div_lt_self (Nat.succ_pos n) (by norm_num)
  show digitsRevFuel (n+1) (n+1) = _
  simp only [digitsRevFuel]
  congr 1
  exact digitsRevFuel_irrel ((n+1)/10) n ((n+1)/10) (by omega) (by omega)

theorem natDigits_eq_nil_iff (n : Nat) : natDigits n = [] ↔ n = 0 := by
  cases n with
  | zero => simp [natDigits, digitsRevFuel]
  | succ m => simp [natDigits_succ]

theorem digitChar_injOn : ∀ a < 10, ∀ b < 10, Nat.digitChar a = Nat.digitChar b → a = b := by
  decide

theorem digitChar_ne_dash : ∀ a < 10, Nat.digitChar a ≠ '-' := by decide

theorem natDigits_mem (n : Nat) : ∀ c ∈ natDigits n, ∃ d, d < 10 ∧ c = Nat.digitChar d := by
  induction n using Nat.strong_induction_on with
  | _ n ih =>
    cases n with
    | zero => simp [natDigits, digitsRevFuel]
    | succ m =>
      intro c hc
      rw [natDigits_succ] at hc
      rcases List.mem_cons.mp hc with h | h
      · exact ⟨(m+1) % 10, Nat.mod_lt _ (by norm_num), h⟩
      · exact ih ((m+1)/10) (Nat.div_lt_self (Nat.succ_pos m) (by norm_num)) c h

theorem natDigits_inj : ∀ m n : Nat, natDigits m = natDigits n → m = n := by
  intro m
  induction m using Nat.strong_induction_on with
  | _ m ih =>
    intro n h
    cases m with
    | zero =>
      cases n with
      | zero => rfl
      | succ k =>
        rw [natDigits_succ] at h
        simp [natDigits, digitsRevFuel] at h
    | succ j =>
      cases n with
      | zero =>
        rw [natDigits_succ] at h
        simp [natDigits, digitsRevFuel] at h
      | succ k =>
        rw [natDigits_succ, natDigits_succ] at h
        injection h with hhead htail
        have hmod : (j+1) % 10 = (k+1) % 10 :=
          digitChar_injOn _ (Nat.mod_lt _ (by norm_num)) _ (Nat.mod_lt _ (by norm_num)) hhead
        have hdivlt : (j+1)/10 < j+1 := Nat.div_lt_self (Nat.succ_pos j) (by norm_num)
        have hdiv : (j+1)/10 = (k+1)/10 := ih ((j+1)/10) hdivlt ((k+1)/10) htail
        omega

theorem digitsOf_mem (n : Nat) : ∀ c ∈ digitsOf n, ∃ d, d < 10 ∧ c = Nat.digitChar d := by
  intro c hc
  unfold digitsOf at hc
  split at hc
  · simp at hc
    exact ⟨0, by norm_num, by rw [hc]; rfl⟩
  · exact natDigits_mem n c (List.mem_reverse.mp hc)

theorem digitsOf_ne_nil (n : Nat) : digitsOf n ≠ [] := by
  unfold digitsOf
  split
  · simp
  · next h =>
    simp only [ne_eq, List.reverse_eq_nil_iff]
    exact fun hnil => h ((natDigits_eq_nil_iff n).mp hnil)

theorem digitsOf_inj {m n : Nat} (h : digitsOf m = digitsOf n) : m = n := by
  unfold digitsOf at h
  split at h <;> split at h
  · omega
  · next hm hn =>
    exfalso
    have hsing : natDigits n = ['0'] := by
      have h2 := h.symm
      rw [List.reverse_eq_iff] at h2
      simpa using h2
    cases n with
    | zero => exact hn rfl
    | succ k =>
      rw [natDigits_succ] at hsing
      injection hsing with hhead htail
      have hdiv0 : (k+1)/10 = 0 := (natDigits_eq_nil_iff _).mp htail
      have hmod : (k+1) % 10 = 0 := by
        have h0 : Nat.digitChar 0 = '0' := rfl
        exact digitChar_injOn _ (Nat.mod_lt _ (by norm_num)) 0 (by norm_num) (by rw [hhead, h0])
      omega
  · next hm hn =>
    exfalso
    have hsing : natDigits m = ['0'] := by
      rw [List.reverse_eq_iff] at h
      simpa using h
    cases m with
    | zero => exact hm rfl
    | succ k =>
      rw [natDigits_succ] at hsing
      injection hsing with hhead htail
      have hdiv0 : (k+1)/10 = 0 := (natDigits_eq_nil_iff _).mp htail
      have hmod : (k+1) % 10 = 0 := by
        have h0 : Nat.digitChar 0 = '0' := rfl
        exact digitChar_injOn _ (Nat.mod_lt _ (by norm_num)) 0 (by norm_num) (by rw [hhead, h0])
      omega
  · exact natDigits_inj m n (List.reverse_injective (by simpa using h))

theorem natStr_inj {m n : Nat} (h : natStr m = natStr n) : m = n :=
  digitsOf_inj (congrArg String.data h)

theorem natStr_data (n : Nat) : (natStr n).data = digitsOf n := rfl

theorem intStr_inj {i j : Int} (h : intStr i = intStr j) : i = j := by
  unfold intStr at h
  split at h <;> split at h
  · next hi hj =>
    have hdd := congrArg String.data h
    simp only [String.data_append, natStr_data] at hdd
    have habs := digitsOf_inj (List.append_cancel_left hdd)
    omega
  · next hi hj =>
    exfalso
    have hdd := congrArg String.data h
    simp only [String.data_append, natStr_data] at hdd
    have hdash : '-' ∈ digitsOf j.natAbs := by
      rw [← hdd]
      exact List.mem_append_left _ (by decide)
    obtain ⟨d, hd10, hdc⟩ := digitsOf_mem _ _ hdash
    exact digitChar_ne_dash d hd10 hdc.symm
  · next hi hj =>
    exfalso
    have hdd := congrArg String.data h
    simp only [String.data_append, natStr_data] at hdd
    have hdash : '-' ∈ digitsOf i.natAbs := by
      rw [hdd]
      exact List.mem_append_left _ (by decide)
    obtain ⟨d, hd10, hdc⟩ := digitsOf_mem _ _ hdash
    exact digitChar_ne_dash d hd10 hdc.symm
  · next hi hj =>
    have habs := natStr_inj h
    omega

/- Room naming helpers, transcribed from the `room` object in
`src/server.js` (lines 68–74).  The id segment is the string interpolation
of whatever value the caller passes. -/
namespace room

/-- `t:${t}` — room.tenant. -/
def tenant (t : String) : String := "t:" ++ t

/-- `t:${t}:canal:${id}` — room.canal. -/
def canal (t id : String) : String := "t:" ++ t ++ ":canal:" ++ id

/-- `t:${t}:dept:${id}` — room.dept. -/
def dept (t id : String) : String := "t:" ++ t ++ ":dept:" ++ id

/-- `t:${t}:op:${id}` — room.op. -/
def op (t id : String) : String := "t:" ++ t ++ ":op:" ++ id

/-- `t:${t}:user:${id}` — room.user. -/
def user (t id : String) : String := "t:" ++ t ++ ":user:" ++ id

end room

/-- Abstract (tenant, kind, id) triple naming one of the five room kinds. -/
inductive GroupKey where
  | tenant (t : String)
  | user (t : String) (id : Int)
  | canal (t : String) (id : Int)
  | dept (t : String) (id : Int)
  | op (t : String) (id : Int)
deriving DecidableEq

/-- Tenant component of a group key. -/
def GroupKey.tenantOf : GroupKey → String
  | .tenant t => t
  | .user t _ => t
  | .canal t _ => t
  | .dept t _ => t
  | .op t _ => t

/-- Room name computed for a group key by the corresponding `room` helper,
interpolating the integer id in decimal. -/
def GroupKey.name : GroupKey → String
  | .tenant t => room.tenant t
  | .user t i => room.user t (intStr i)
  | .canal t i => room.canal t (intStr i)
  | .dept t i => room.dept t (intStr i)
  | .op t i => room.op t (intStr i)

/-- A string containing no `:` separator. -/
def colonFree (s : String) : Prop := ':' ∉ s.data

instance (s : String) : Decidable (colonFree s) :=
  inferInstanceAs (Decidable (':' ∉ s.data))

theorem append_colon_inj {l₁ l₂ r₁ r₂ : List Char} (h₁ : ':' ∉ l₁) (h₂ : ':' ∉ l₂)
    (h : l₁ ++ ':' :: r₁ = l₂ ++ ':' :: r₂) : l₁ = l₂ ∧ r₁ = r₂ := by
  induction l₁ generalizing l₂ with
  | nil =>
    cases l₂ with
    | nil => simpa using h
    | cons b bs =>
      exfalso
      rw [List.nil_append, List.cons_append] at h
      injection h with hb hr
      apply h₂
      rw [← hb]
      exact List.mem_cons_self _ _
  | cons a as ih =>
    cases l₂ with
    | nil =>
      exfalso
      rw [List.nil_append, List.cons_append] at h
      injection h with hb hr
      apply h₁
      rw [hb]
      exact List.mem_cons_self _ _
    | cons b bs =>
      rw [List.cons_append, List.cons_append] at h
      injection h with hb hrest
      subst hb
      have hr := ih (fun hm => h₁ (List.mem_cons_of_mem _ hm))
        (fun hm => h₂ (List.mem_cons_of_mem _ hm)) hrest
      exact ⟨by rw [hr.1], hr.2⟩

theorem room_tenant_data (t : String) : (room.tenant t).data = 't' :: ':' :: t.data := by
  have h1 : "t:".data = ['t', ':'] := rfl
  simp [room.tenant, String.data_append, h1]

theorem room_user_data (t id : String) :
    (room.user t id).data =
      't' :: ':' :: (t.data ++ ':' :: (['u','s','e','r'] ++ ':' :: id.data)) := by
  have h1 : "t:".data = ['t', ':'] := rfl
  have h2 : ":user:".data = [':','u','s','e','r',':'] := rfl
  simp [room.user, String.data_append, h1, h2]

theorem room_canal_data (t id : String) :
    (room.canal t id).data =
      't' :: ':' :: (t.data ++ ':' :: (['c','a','n','a','l'] ++ ':' :: id.data)) := by
  have h1 : "t:".data = ['t', ':'] := rfl
  have h2 : ":canal:".data = [':','c','a','n','a','l',':'] := rfl
  simp [room.canal, String.data_append, h1, h2]

theorem room_dept_data (t id : String) :
    (room.dept t id).data =
      't' :: ':' :: (t.data ++ ':' :: (['d','e','p','t'] ++ ':' :: id.data)) := by
  have h1 : "t:".data = ['t', ':'] := rfl
  have h2 : ":dept:".data = [':','d','e','p','t',':'] := rfl
  simp [room.dept, String.data_append, h1, h2]

theorem room_op_data (t id : String) :
    (room.op t id).data =
      't' :: ':' :: (t.data ++ ':' :: (['o','p'] ++ ':' :: id.data)) := by
  have h1 : "t:".data = ['t', ':'] := rfl
  have h2 : ":op:".data = [':','o','p',':'] := rfl
  simp [room.op, String.data_append, h1, h2]

theorem tagged_eq (t₁ t₂ id₁ id₂ : String) (tag₁ tag₂ : List Char)
    (ht₁ : colonFree t₁) (ht₂ : colonFree t₂)
    (htag₁ : ':' ∉ tag₁) (htag₂ : ':' ∉ tag₂)
    (h : 't' :: ':' :: (t₁.data ++ ':' :: (tag₁ ++ ':' :: id₁.data)) =
         't' :: ':' :: (t₂.data ++ ':' :: (tag₂ ++ ':' :: id₂.data))) :
    t₁ = t₂ ∧ tag₁ = tag₂ ∧ id₁ = id₂ := by
  injection h with hx h
  injection h with hy h
  obtain ⟨hten, hrest⟩ := append_colon_inj ht₁ ht₂ h
  obtain ⟨htag, hid⟩ := append_colon_inj htag₁ htag₂ hrest
  exact ⟨String.ext hten, htag, String.ext hid⟩

theorem tenant_ne_tagged (t₁ t₂ id : String) (tag : List Char) (ht₁ : colonFree t₁)
    (h : 't' :: ':' :: t₁.data = 't' :: ':' :: (t₂.data ++ ':' :: (tag ++ ':' :: id.data))) :
    False := by
  injection h with hx h
  injection h with hy h
  apply ht₁
  rw [h]
  exact List.mem_append_right _ (List.mem_cons_self _ _)

theorem groupKey_name_inj (k₁ k₂ : GroupKey) (h₁ : colonFree k₁.tenantOf)
    (h₂ : colonFree k₂.tenantOf) (h : k₁.name = k₂.name) : k₁ = k₂ := by
  have hd := congrArg String.data h
  cases k₁ <;> cases k₂ <;>
    simp only [GroupKey.tenantOf] at h₁ h₂ <;>
    simp only [GroupKey.name, room_tenant_data, room_user_data, room_canal_data,
      room_dept_data, room_op_data] at hd <;>
    first
    | (injection hd with ha hd
       injection hd with hb hd
       exact congrArg GroupKey.tenant (String.ext hd))
    | exact (tenant_ne_tagged _ _ _ _ h₁ hd).elim
    | exact (tenant_ne_tagged _ _ _ _ h₂ hd.symm).elim
    | (obtain ⟨ht, htag, hid⟩ := tagged_eq _ _ _ _ _ _ h₁ h₂ (by decide) (by decide) hd
       first
       | exact absurd htag (by decide)
       | rw [ht, intStr_inj hid])

/-- C1 (amended): the five group-naming functions are injective over
(tenant, kind, id) triples *provided the tenant string contains no `:`
separator*; in particular two keys with distinct colon-free tenants never
produce the same name.  Without the colon-free restriction the claim as
stated is false (see the counterexample theorem): `normalizeTenant` never
removes colons, and a tenant string that itself contains `:canal:` makes
the tenant-wide name of one tenant collide with a channel name of
another. -/
theorem room_naming_injective (k₁ k₂ : GroupKey)
    (h₁ : colonFree k₁.tenantOf) (h₂ : colonFree k₂.tenantOf) :
    (k₁.name = k₂.name → k₁ = k₂) ∧
    (k₁.tenantOf ≠ k₂.tenantOf → k₁.name ≠ k₂.name) := by
  constructor
  · exact groupKey_name_inj k₁ k₂ h₁ h₂
  · intro hten hname
    exact hten (congrArg GroupKey.tenantOf (groupKey_name_inj k₁ k₂ h₁ h₂ hname))

/-- C1 counterexample: two distinct (tenant, kind, id) triples — the
tenant-wide key of tenant `"x:canal:5"` and the channel-5 key of tenant
`"x"` — produce the same room name, although their tenants differ.  So
group naming as implemented is not injective over arbitrary tenant
strings, and a name computed for one tenant can equal a name computed for
a different tenant. -/
theorem room_naming_counterexample :
    (GroupKey.tenant "x:canal:5").name = (GroupKey.canal "x" 5).name ∧
    GroupKey.tenant "x:canal:5" ≠ GroupKey.canal "x" 5 ∧
    (GroupKey.tenant "x:canal:5").tenantOf ≠ (GroupKey.canal "x" 5).tenantOf := by
  refine ⟨by decide, by decide, by decide⟩

/-- Witness for `room_naming_injective` at concrete keys: both conjuncts
applied with all hypotheses discharged by evaluation. -/
theorem room_naming_injective_witness :
    colonFree (GroupKey.user "acme" 7).tenantOf ∧
    colonFree (GroupKey.canal "beta" 7).tenantOf ∧
    GroupKey.user "acme" 7 = GroupKey.user "acme" 7 ∧
    (GroupKey.user "acme" 7).name ≠ (GroupKey.canal "beta" 7).name := by
  refine ⟨by decide, by decide, ?_, ?_⟩
  · exact (room_naming_injective (GroupKey.user "acme" 7) (GroupKey.user "acme" 7)
      (by decide) (by decide)).1 rfl
  · exact (room_naming_injective (GroupKey.user "acme" 7) (GroupKey.canal "beta" 7)
      (by decide) (by decide)).2 (by decide)

/-- Dynamically-typed JavaScript value, as far as the server inspects one:
`undefined`, `null`, booleans, integer numbers, strings and arrays.
(Non-integer numbers fail every `Number.isInteger` test exactly like the
non-number constructors here and are not modelled separately.) -/
inductive JsValue where
  | undef
  | nullv
  | bool (b : Bool)
  | int (n : Int)
  | str (s : String)
  | arr (xs : List JsValue)

/-- JavaScript truthiness of a modelled value: `undefined`, `null`,
`false`, `0` and `""` are falsy; everything else (including `[]`) is
truthy. -/
def truthy : JsValue → Bool
  | .undef => false
  | .nullv => false
  | .bool b => b
  | .int n => n != 0
  | .str s => s != ""
  | .arr _ => true

/-- `Number.isInteger` on a modelled value. -/
def isIntV : JsValue → Bool
  | .int _ => true
  | _ => false

/-- Integer value of a field when `Number.isInteger` holds, else `none`. -/
def toInt? : JsValue → Option Int
  | .int n => some n
  | _ => none

/-- Value of a target field when it is a positive integer (the combined
`Number.isInteger(x) && x > 0` test of the message handler). -/
def posInt? : JsValue → Option Int
  | .int n => if 0 < n then some n else none
  | _ => none

mutual

/-- JavaScript template interpolation of a modelled value (arrays join
their rendered elements with commas, following Array.prototype.toString). -/
def jsStr : JsValue → String
  | .undef => "undefined"
  | .nullv => "null"
  | .bool true => "true"
  | .bool false => "false"
  | .int n => intStr n
  | .str s => s
  | .arr xs => String.intercalate "," (jsStrList xs)

/-- Renders each element of a list of values. -/
def jsStrList : List JsValue → List String
  | [] => []
  | v :: vs => jsStr v :: jsStrList vs

end

/-- ASCII lowercasing of one character — the effect of
`String.prototype.toLowerCase` on the ASCII range (the server compares
tenants it lowercased itself, so only ASCII behaviour is relevant). -/
def lowerChar (c : Char) : Char :=
  match c with
  | 'A' => 'a' | 'B' => 'b' | 'C' => 'c' | 'D' => 'd' | 'E' => 'e' | 'F' => 'f'
  | 'G' => 'g' | 'H' => 'h' | 'I' => 'i' | 'J' => 'j' | 'K' => 'k' | 'L' => 'l'
  | 'M' => 'm' | 'N' => 'n' | 'O' => 'o' | 'P' => 'p' | 'Q' => 'q' | 'R' => 'r'
  | 'S' => 's' | 'T' => 't' | 'U' => 'u' | 'V' => 'v' | 'W' => 'w' | 'X' => 'x'
  | 'Y' => 'y' | 'Z' => 'z'
  | other => other

/-- `toLowerCase` over a whole string. -/
def toLowerStr (s : String) : String := String.mk (s.data.map lowerChar)

/-- `String.prototype.trim`: drop whitespace from both ends. -/
def trimStr (s : String) : String :=
  String.mk (((s.data.dropWhile Char.isWhitespace).reverse.dropWhile
    Char.isWhitespace).reverse)

/-- Strip one leading `"www."` — the `replace(/^www\./, "")` step. -/
def stripWww (s : String) : String :=
  match s.data with
  | 'w' :: 'w' :: 'w' :: '.' :: rest => String.mk rest
  | _ => s

/-- `normalizeTenant` from `src/server.js` lines 62–65: `null` for a
missing, non-string or empty (hence falsy) raw claim, otherwise
trim, then lowercase, then strip one leading `www.`. -/
def normalizeTenant : JsValue → Option String
  | .str s => if s = "" then none else some (stripWww (toLowerStr (trimStr s)))
  | _ => none

/-- ASCII uppercase letters. -/
def upperChars : List Char :=
  ['A','B','C','D','E','F','G','H','I','J','K','L','M',
   'N','O','P','Q','R','S','T','U','V','W','X','Y','Z']

theorem lowerChar_not_upper (c : Char) : lowerChar c ∉ upperChars := by
  unfold lowerChar
  split
  case _ => decide
  case _ => decide
  all_goals first | decide | (simp_all [upperChars])

/-- JWT claim set reaching the auth middleware body after cryptographic
verification succeeds (the fields `src/server.js` reads). -/
structure Claims where
  tenant : JsValue
  sub : JsValue
  role : JsValue
  canais : JsValue
  departamentos : JsValue
  operador_id : JsValue

/-- `isIntArray` from `src/server.js` lines 102–104. -/
def isIntArray : JsValue → Bool
  | .arr xs => xs.all isIntV
  | _ => false

/-- Integer elements of a well-formed integer-array claim, else `[]` (the
`isIntArray(claims.canais) ? claims.canais : []` defaulting). -/
def intArrayOrEmpty (v : JsValue) : List Int :=
  match v with
  | .arr xs => if xs.all isIntV then xs.filterMap toInt? else []
  | _ => []

/-- Trusted identity attached to the socket as `socket.user`
(`src/server.js` lines 134–142). -/
structure Identity where
  id : JsValue
  tenant : String
  role : JsValue
  canais : List Int
  departamentos : List Int
  operadorId : Option Int

/-- Rejection reasons of the auth middleware body (`tenant_missing`,
`sub_missing`); `unauthorized` from a failed JWT verification happens
before the modelled code runs. -/
inductive AuthError where
  | tenant_missing
  | sub_missing
deriving DecidableEq

/-- Auth middleware body (`src/server.js` lines 118–146) after successful
JWT verification: tenant normalization and check (`if (!tenant)`), subject
check (`if (!userId)`), then construction of `socket.user`. -/
def authenticate (c : Claims) : Except AuthError Identity :=
  match normalizeTenant c.tenant with
  | none => .error .tenant_missing
  | some t =>
    if t = "" then .error .tenant_missing
    else if truthy c.sub = false then .error .sub_missing
    else .ok {
      id := c.sub
      tenant := t
      role := if truthy c.role then c.role else .str "user"
      canais := intArrayOrEmpty c.canais
      departamentos := intArrayOrEmpty c.departamentos
      operadorId := toInt? c.operador_id }

/-- Rooms joined by the connection handler (`src/server.js` lines
159–186), in join order: tenant room, own-user room, operator room when
`socket.user.operadorId` is truthy (an integer other than `0`), one room
per channel id, one per department id.  The subscription set is computed
here once and nothing in the server mutates it afterwards. -/
def joinedRooms (u : Identity) : List String :=
  [room.tenant u.tenant, room.user u.tenant (jsStr u.id)]
  ++ (match u.operadorId with
      | some n => if n ≠ 0 then [room.op u.tenant (intStr n)] else []
      | none => [])
  ++ u.canais.map (fun cid => room.canal u.tenant (intStr cid))
  ++ u.departamentos.map (fun d => room.dept u.tenant (intStr d))

theorem normalizeTenant_eq_some {v : JsValue} {t : String} :
    normalizeTenant v = some t ↔
      ∃ s, v = .str s ∧ s ≠ "" ∧ t = stripWww (toLowerStr (trimStr s)) := by
  cases v <;> simp only [normalizeTenant]
  case str s =>
    constructor
    · intro h
      split at h
      · exact absurd h (by simp)
      · next hs => exact ⟨s, rfl, hs, (Option.some.injEq _ _ ▸ h).symm⟩
    · rintro ⟨s2, heq, hne, rfl⟩
      injection heq with heq
      subst heq
      simp [hne]
  all_goals simp

theorem authenticate_ok_iff {c : Claims} {u : Identity} :
    authenticate c = .ok u ↔
      ∃ s, c.tenant = .str s ∧ s ≠ "" ∧ stripWww (toLowerStr (trimStr s)) ≠ "" ∧
        truthy c.sub = true ∧
        u = { id := c.sub
              tenant := stripWww (toLowerStr (trimStr s))
              role := if truthy c.role then c.role else .str "user"
              canais := intArrayOrEmpty c.canais
              departamentos := intArrayOrEmpty c.departamentos
              operadorId := toInt? c.operador_id } := by
  unfold authenticate
  constructor
  · intro h
    split at h
    · exact absurd h (by simp)
    · next t hnt =>
      obtain ⟨s, hcs, hsne, hts⟩ := normalizeTenant_eq_some.mp hnt
      split at h
      · exact absurd h (by simp)
      · split at h
        · exact absurd h (by simp)
        · next hte hsub =>
          refine ⟨s, hcs, hsne, ?_, ?_, ?_⟩
          · rw [← hts]; exact hte
          · cases htr : truthy c.sub
            · exact absurd htr hsub
            · rfl
          · injection h with h
            rw [← h, hts]
  · rintro ⟨s, hcs, hsne, htne, hsub, rfl⟩
    have hnt : normalizeTenant c.tenant = some (stripWww (toLowerStr (trimStr s))) :=
      normalizeTenant_eq_some.mpr ⟨s, hcs, hsne, rfl⟩
    rw [hnt]
    simp [htne, hsub]

theorem authenticate_tenant_missing_iff {c : Claims} :
    authenticate c = .error .tenant_missing ↔
      ∀ s, c.tenant = .str s → stripWww (toLowerStr (trimStr s)) = "" := by
  cases hv : c.tenant with
  | str s =>
    by_cases hs : s = ""
    · subst hs
      constructor
      · rintro - s2 heq
        injection heq with heq
        subst heq
        decide
      · intro _
        simp [authenticate, hv, normalizeTenant]
    · have hnt : normalizeTenant c.tenant = some (stripWww (toLowerStr (trimStr s))) := by
        rw [hv]
        simp [normalizeTenant, hs]
      constructor
      · intro h s2 heq
        injection heq with heq
        subst heq
        by_contra hne
        simp only [authenticate, hnt] at h
        rw [if_neg hne] at h
        split at h <;> simp at h
      · intro hall
        have hz := hall s rfl
        simp only [authenticate, hnt]
        rw [if_pos hz]
  | undef => simp [authenticate, hv, normalizeTenant]
  | nullv => simp [authenticate, hv, normalizeTenant]
  | bool b => simp [authenticate, hv, normalizeTenant]
  | int n => simp [authenticate, hv, normalizeTenant]
  | arr xs => simp [authenticate, hv, normalizeTenant]

theorem stripWww_mem {s : String} : ∀ ch ∈ (stripWww s).data, ch ∈ s.data := by
  unfold stripWww
  split
  · next heq =>
    intro ch hch
    rw [heq]
    simp only [String.data] at hch
    simp [hch]
  · intro ch hch
    exact hch

theorem toLowerStr_not_upper (s : String) : ∀ ch ∈ (toLowerStr s).data, ch ∉ upperChars := by
  intro ch hch
  simp only [toLowerStr, String.data] at hch
  obtain ⟨x, -, rfl⟩ := List.mem_map.mp hch
  exact lowerChar_not_upper x

theorem authenticate_sub_missing_iff {c : Claims} :
    authenticate c = .error .sub_missing ↔
      (∃ s, c.tenant = .str s ∧ s ≠ "" ∧ stripWww (toLowerStr (trimStr s)) ≠ "") ∧
        truthy c.sub = false := by
  cases hnt : normalizeTenant c.tenant with
  | none =>
    simp only [authenticate, hnt]
    constructor
    · intro h
      exact absurd h (by simp)
    · rintro ⟨⟨s, hcs, hsne, -⟩, -⟩
      have := normalizeTenant_eq_some.mpr ⟨s, hcs, hsne, rfl⟩
      rw [hnt] at this
      exact absurd this (by simp)
  | some t =>
    obtain ⟨s, hcs, hsne, rfl⟩ := normalizeTenant_eq_some.mp hnt
    simp only [authenticate, hnt]
    by_cases hte : stripWww (toLowerStr (trimStr s)) = ""
    · rw [if_pos hte]
      constructor
      · intro h
        exact absurd h (by simp)
      · rintro ⟨⟨s2, hcs2, -, hne2⟩, -⟩
        rw [hcs] at hcs2
        injection hcs2 with he
        subst he
        exact absurd hte hne2
    · rw [if_neg hte]
      constructor
      · intro h
        split at h
        · next hsubf => exact ⟨⟨s, hcs, hsne, hte⟩, hsubf⟩
        · exact absurd h (by simp)
      · rintro ⟨-, hsub⟩
        rw [if_pos hsub]

/-- C9 (amended): the middleware rejects with `sub_missing` exactly when —
the tenant check having passed — the subject claim is *falsy* (absent,
`null`, `false`, `0` or `""`), not merely when it is absent; and a
successfully constructed Identity carries the subject claim verbatim as
its `userId`, which is therefore truthy but need not be a positive
integer (any nonzero integer, nonempty string, or other truthy value is
accepted). -/
theorem subject_check (c : Claims) :
    (authenticate c = .error .sub_missing ↔
      (∃ s, c.tenant = .str s ∧ s ≠ "" ∧ stripWww (toLowerStr (trimStr s)) ≠ "") ∧
        truthy c.sub = false) ∧
    (∀ u, authenticate c = .ok u → u.id = c.sub ∧ truthy u.id = true) := by
  refine ⟨authenticate_sub_missing_iff, ?_⟩
  intro u h
  obtain ⟨s, -, -, -, hsub, rfl⟩ := authenticate_ok_iff.mp h
  exact ⟨rfl, hsub⟩

/-- C9 counterexample: a subject claim of `0` is present (it is not
`undefined`) yet the middleware rejects with `sub_missing`, because the
code tests truthiness (`if (!userId)`) rather than absence; and a subject
claim of `-1` is accepted, constructing an Identity whose `userId` is not
a positive integer. -/
theorem subject_check_counterexample :
    authenticate ⟨.str "acme", .int 0, .undef, .undef, .undef, .undef⟩ =
      .error .sub_missing ∧
    JsValue.int 0 ≠ JsValue.undef ∧
    authenticate ⟨.str "acme", .int (-1), .undef, .undef, .undef, .undef⟩ =
      .ok ⟨.int (-1), "acme", .str "user", [], [], none⟩ ∧
    ¬ (0 : Int) < (-1 : Int) := by
  refine ⟨rfl, by simp, rfl, by norm_num⟩

/-- Witness for `subject_check`: a truthy non-integer subject claim is
accepted verbatim. -/
theorem subject_check_witness :
    authenticate ⟨.str "acme", .str "bob", .undef, .undef, .undef, .undef⟩ =
      .ok ⟨.str "bob", "acme", .str "user", [], [], none⟩ ∧
    JsValue.str "bob" = JsValue.str "bob" ∧ truthy (JsValue.str "bob") = true := by
  have h := (subject_check ⟨.str "acme", .str "bob", .undef, .undef, .undef, .undef⟩).2
    ⟨.str "bob", "acme", .str "user", [], [], none⟩ rfl
  exact ⟨rfl, h.1, h.2⟩

/-- C8 (confirmed): `normalizeTenant` normalizes a string claim by
trimming whitespace, ASCII-lowercasing and stripping one leading
`"www."`; the middleware rejects with `tenant_missing` exactly when the
raw claim is not a string or its normalization is empty; and every
successfully constructed Identity has a non-empty tenant containing no
uppercase ASCII letter. -/
theorem tenant_normalization (c : Claims) :
    (authenticate c = .error .tenant_missing ↔
      ∀ s, c.tenant = .str s → stripWww (toLowerStr (trimStr s)) = "") ∧
    (∀ s, c.tenant = .str s → s ≠ "" →
      normalizeTenant c.tenant = some (stripWww (toLowerStr (trimStr s)))) ∧
    (∀ u, authenticate c = .ok u →
      u.tenant ≠ "" ∧ ∀ ch ∈ u.tenant.data, ch ∉ upperChars) := by
  refine ⟨authenticate_tenant_missing_iff, ?_, ?_⟩
  · intro s hcs hsne
    rw [hcs]
    simp [normalizeTenant, hsne]
  · intro u h
    obtain ⟨s, -, -, htne, -, rfl⟩ := authenticate_ok_iff.mp h
    refine ⟨htne, ?_⟩
    intro ch hch
    exact toLowerStr_not_upper (trimStr s) ch (stripWww_mem ch hch)

/-- Witness for `tenant_normalization`: a raw claim with surrounding
whitespace, uppercase letters and a `www.` marker yields the normalized
non-empty lowercase tenant `"acme.com"`. -/
theorem tenant_normalization_witness :
    authenticate ⟨.str " WWW.Acme.COM", .int 1, .undef, .undef, .undef, .undef⟩ =
      .ok ⟨.int 1, "acme.com", .str "user", [], [], none⟩ ∧
    ("acme.com" : String) ≠ "" ∧ ∀ ch ∈ ("acme.com" : String).data, ch ∉ upperChars := by
  have h := (tenant_normalization
    ⟨.str " WWW.Acme.COM", .int 1, .undef, .undef, .undef, .undef⟩).2.2
    ⟨.int 1, "acme.com", .str "user", [], [], none⟩ rfl
  exact ⟨rfl, h.1, h.2⟩

/-- C7 (amended): on successful authentication the connection handler
registers the connection (once, before any event handler is installed) in
exactly these rooms computed from its identity: the tenant room, its
own-user room, the operator room exactly when the `operador_id` claim is
a well-formed *nonzero* integer (the code tests JavaScript truthiness of
`socket.user.operadorId`, so a well-formed claim of `0` joins no operator
room), one channel room per channel id, and one department room per
department id; the subscription list is a pure function of the identity
and is never recomputed. -/
theorem joined_rooms_spec (c : Claims) (u : Identity)
    (h : authenticate c = .ok u) : ∀ r : String,
    r ∈ joinedRooms u ↔
      (r = room.tenant u.tenant ∨ r = room.user u.tenant (jsStr u.id) ∨
       (∃ n, toInt? c.operador_id = some n ∧ n ≠ 0 ∧ r = room.op u.tenant (intStr n)) ∨
       (∃ cid ∈ u.canais, r = room.canal u.tenant (intStr cid)) ∨
       (∃ d ∈ u.departamentos, r = room.dept u.tenant (intStr d))) := by
  have hop : toInt? c.operador_id = u.operadorId := by
    obtain ⟨s, -, -, -, -, rfl⟩ := authenticate_ok_iff.mp h
    rfl
  intro r
  rw [hop]
  cases hopv : u.operadorId with
  | none =>
    simp [joinedRooms, hopv, List.mem_append, List.mem_map, eq_comm]
  | some n =>
    by_cases hn : n = 0
    · subst hn
      simp [joinedRooms, hopv, List.mem_append, List.mem_map, eq_comm]
    · simp [joinedRooms, hopv, hn, List.mem_append, List.mem_map, eq_comm]

/-- C7 counterexample: a credential whose `operador_id` claim is the
well-formed integer `0` authenticates successfully, so by the claim the
operator room should be joined (`operatorId` "present" as a well-formed
integer), yet the join list contains no operator room, because
`if (socket.user.operadorId)` is false for `0`. -/
theorem joined_rooms_counterexample :
    authenticate ⟨.str "acme", .int 1, .undef, .undef, .undef, .int 0⟩ =
      .ok ⟨.int 1, "acme", .str "user", [], [], some 0⟩ ∧
    toInt? (.int 0) = some 0 ∧
    room.op "acme" (intStr 0) ∉
      joinedRooms ⟨.int 1, "acme", .str "user", [], [], some 0⟩ := by
  refine ⟨rfl, rfl, by decide⟩

/-- Witness for `joined_rooms_spec`: a connection with one channel, one
department and a nonzero operator id joins exactly the expected rooms —
its operator room is a member of the join list and a foreign channel room
is not. -/
theorem joined_rooms_spec_witness :
    authenticate ⟨.str "acme", .int 1, .undef, .arr [.int 2], .arr [.int 5], .int 4⟩ =
      .ok ⟨.int 1, "acme", .str "user", [2], [5], some 4⟩ ∧
    room.op "acme" (intStr 4) ∈
      joinedRooms ⟨.int 1, "acme", .str "user", [2], [5], some 4⟩ ∧
    room.canal "acme" (intStr 9) ∉
      joinedRooms ⟨.int 1, "acme", .str "user", [2], [5], some 4⟩ := by
  refine ⟨rfl, ?_, ?_⟩
  · exact (joined_rooms_spec
      ⟨.str "acme", .int 1, .undef, .arr [.int 2], .arr [.int 5], .int 4⟩
      ⟨.int 1, "acme", .str "user", [2], [5], some 4⟩ rfl
      (room.op "acme" (intStr 4))).mpr
      (Or.inr (Or.inr (Or.inl ⟨4, rfl, by norm_num, rfl⟩)))
  · intro hmem
    have hcases := (joined_rooms_spec
      ⟨.str "acme", .int 1, .undef, .arr [.int 2], .arr [.int 5], .int 4⟩
      ⟨.int 1, "acme", .str "user", [2], [5], some 4⟩ rfl
      (room.canal "acme" (intStr 9))).mp hmem
    revert hcases
    decide

/-- Per-socket rate limiter state (`attachRateLimit` closure variables,
`src/server.js` lines 77–100): `windowStart` timestamp and packet `count`
within the current window. -/
structure RLState where
  windowStart : Nat
  count : Nat
deriving DecidableEq

/-- One admission check of the `socket.use` middleware: if
`now - windowStart >= windowMs` the window is reset (`windowStart = now`,
`count = 0`); `count` is then incremented, and the packet is rejected
exactly when `count > max`.  Returned flag is `true` when allowed; the two
branches inline the post-reset count. -/
def checkPacket (max windowMs : Nat) (s : RLState) (now : Nat) : Bool × RLState :=
  if windowMs ≤ now - s.windowStart then
    (decide (1 ≤ max), RLState.mk now 1)
  else
    (decide (s.count + 1 ≤ max), RLState.mk s.windowStart (s.count + 1))

/-- Threads a sequence of admission checks at the given times. -/
def runChecks (max windowMs : Nat) : List Nat → RLState → List Bool × RLState
  | [], s => ([], s)
  | t :: ts, s =>
    let r := checkPacket max windowMs s t
    let rest := runChecks max windowMs ts r.2
    (r.1 :: rest.1, rest.2)

theorem runChecks_in_window (max windowMs : Nat) :
    ∀ (ts : List Nat) (s : RLState),
      (∀ t ∈ ts, s.windowStart ≤ t ∧ t < s.windowStart + windowMs) →
      runChecks max windowMs ts s =
        ((List.range ts.length).map (fun i => decide (s.count + i + 1 ≤ max)),
         RLState.mk s.windowStart (s.count + ts.length)) := by
  intro ts
  induction ts with
  | nil =>
    intro s hmem
    simp [runChecks]
  | cons t ts ih =>
    intro s hmem
    have ht := hmem t (List.mem_cons_self _ _)
    have hno : ¬ windowMs ≤ t - s.windowStart := by omega
    have hadm : checkPacket max windowMs s t =
        (decide (s.count + 1 ≤ max), RLState.mk s.windowStart (s.count + 1)) := by
      rw [checkPacket, if_neg hno]
    have ihs := ih (RLState.mk s.windowStart (s.count + 1))
      (fun x hx => hmem x (List.mem_cons_of_mem _ hx))
    simp only [runChecks, hadm, ihs]
    refine Prod.ext ?_ ?_
    · show decide (s.count + 1 ≤ max) ::
        (List.range ts.length).map (fun i => (RLState.mk s.windowStart (s.count + 1)).count + i + 1 ≤ max) =
        (List.range (ts.length + 1)).map (fun i => decide (s.count + i + 1 ≤ max))
      rw [List.range_succ_eq_map, List.map_cons, List.map_map]
      congr 1
      refine List.map_congr_left ?_
      intro i hi
      show decide _ = decide _
      rw [decide_eq_decide]
      show s.count + 1 + i + 1 ≤ max ↔ s.count + (i + 1) + 1 ≤ max
      omega
    · show RLState.mk s.windowStart (s.count + 1 + ts.length) =
        RLState.mk s.windowStart (s.count + (ts.length + 1))
      congr 1
      omega

theorem runChecks_append (max windowMs : Nat) (a b : List Nat) (s : RLState) :
    runChecks max windowMs (a ++ b) s =
      ((runChecks max windowMs a s).1 ++
        (runChecks max windowMs b (runChecks max windowMs a s).2).1,
       (runChecks max windowMs b (runChecks max windowMs a s).2).2) := by
  induction a generalizing s with
  | nil => simp [runChecks]
  | cons t tsa ih => simp [runChecks, ih]

/-- C3: for capacity `max` and window width `windowMs`, starting a window
at `ws` with count `0`, all admission checks at times inside
`[ws, ws + windowMs)` succeed for the first `max` checks and fail from the
`(max+1)`th on; a check at a time at least `ws + windowMs` later resets
the window, and a fresh batch inside the new window again succeeds exactly
`max` times (the reset check itself counting as the new window's first
admission). -/
theorem rate_limit_window (max windowMs ws : Nat) (ts₁ : List Nat) (t₂ : Nat)
    (ts₂ : List Nat)
    (h₁ : ∀ t ∈ ts₁, ws ≤ t ∧ t < ws + windowMs)
    (h₂ : ws + windowMs ≤ t₂)
    (h₃ : ∀ t ∈ ts₂, t₂ ≤ t ∧ t < t₂ + windowMs) :
    (runChecks max windowMs (ts₁ ++ t₂ :: ts₂) (RLState.mk ws 0)).1 =
      (List.range ts₁.length).map (fun i => decide (i + 1 ≤ max)) ++
      (List.range (ts₂.length + 1)).map (fun i => decide (i + 1 ≤ max)) := by
  have hrun1 := runChecks_in_window max windowMs ts₁ (RLState.mk ws 0)
    (by intro t htm; have := h₁ t htm; show ws ≤ t ∧ t < ws + windowMs; omega)
  have hadm : checkPacket max windowMs (RLState.mk ws (0 + ts₁.length)) t₂ =
      (decide (1 ≤ max), RLState.mk t₂ 1) := by
    rw [checkPacket, if_pos (show windowMs ≤ t₂ - (RLState.mk ws (0 + ts₁.length)).windowStart by
      show windowMs ≤ t₂ - ws
      omega)]
  have hrun2 := runChecks_in_window max windowMs ts₂ (RLState.mk t₂ 1)
    (by intro t htm; have := h₃ t htm; show t₂ ≤ t ∧ t < t₂ + windowMs; omega)
  rw [runChecks_append, hrun1]
  simp only [runChecks, hadm, hrun2]
  show (List.range ts₁.length).map (fun i => decide (0 + i + 1 ≤ max)) ++
      decide (1 ≤ max) :: (List.range ts₂.length).map
        (fun i => decide ((RLState.mk t₂ 1).count + i + 1 ≤ max)) = _
  congr 1
  · refine List.map_congr_left ?_
    intro i hi
    rw [decide_eq_decide]
    show 0 + i + 1 ≤ max ↔ i + 1 ≤ max
    omega
  · rw [List.range_succ_eq_map, List.map_cons, List.map_map]
    congr 1
    refine List.map_congr_left ?_
    intro i hi
    show decide _ = decide _
    rw [decide_eq_decide]
    show 1 + i + 1 ≤ max ↔ i + 1 + 1 ≤ max
    omega

/-- Witness for `rate_limit_window`: capacity 2, window 1000 ms, three
checks in the first window (third rejected), then a check at the window
boundary and one more in the new window (both allowed again). -/
theorem rate_limit_window_witness :
    (runChecks 2 1000 [0, 1, 2, 1000, 1001] (RLState.mk 0 0)).1 =
      [true, true, false, true, true] := by
  have h := rate_limit_window 2 1000 0 [0, 1, 2] 1000 [1001]
    (by decide) (by norm_num) (by decide)
  simpa using h

/-- Payload of a `message` event (`src/server.js` line 207). -/
structure MessagePayload where
  to_user_id : JsValue
  to_canal_id : JsValue
  to_departamento_id : JsValue
  message : JsValue

/-- Early-return reasons of the message handler, in source order
(`no_emitter` is the final `if (!emitter) return`). -/
inductive Reject where
  | invalid_type
  | too_long
  | no_target
  | channel_unauthorized
  | department_unauthorized
  | no_emitter
deriving DecidableEq

/-- Outbound payload `{from_user_id, message, timestamp}`
(`src/server.js` lines 266–270). -/
structure Outgoing where
  from_user_id : JsValue
  message : String
  timestamp : Nat

/-- Decision of one `message` event: silently dropped, or sent to a
destination room. -/
inductive HandlerResult where
  | dropped (r : Reject)
  | sent (emitter : String) (payload : Outgoing)

/-- The strict comparison `socket.user.role === "admin"`. -/
def isAdminRole (u : Identity) : Bool :=
  match u.role with
  | .str s => s == "admin"
  | _ => false

/-- Destination resolution chain (`src/server.js` lines 271–286): positive
user target, else positive channel target, else positive department
target, else tenant-wide broadcast for an admin sender, else none. -/
def resolveEmitter (u : Identity) (p : MessagePayload) : Option String :=
  match posInt? p.to_user_id with
  | some n => some (room.user u.tenant (intStr n))
  | none =>
    match posInt? p.to_canal_id with
    | some n => some (room.canal u.tenant (intStr n))
    | none =>
      match posInt? p.to_departamento_id with
      | some n => some (room.dept u.tenant (intStr n))
      | none => if isAdminRole u then some (room.tenant u.tenant) else none

/-- Emission phase (`src/server.js` lines 265–293): build the payload,
resolve the destination, return silently when none resolves
(`if (!emitter) return`). -/
def resolvePhase (u : Identity) (p : MessagePayload) (msg : String) (now : Nat) :
    HandlerResult :=
  match resolveEmitter u p with
  | none => .dropped .no_emitter
  | some e => .sent e (Outgoing.mk u.id msg now)

/-- Department authorization check (`src/server.js` lines 254–264): a
positive integer department target must be held by the sender unless the
sender is admin. -/
def deptPhase (u : Identity) (p : MessagePayload) (msg : String) (now : Nat) :
    HandlerResult :=
  match posInt? p.to_departamento_id with
  | some n =>
    if !(u.departamentos.contains n) && !(isAdminRole u) then
      .dropped .department_unauthorized
    else resolvePhase u p msg now
  | none => resolvePhase u p msg now

/-- Channel authorization check (`src/server.js` lines 243–253). -/
def canalPhase (u : Identity) (p : MessagePayload) (msg : String) (now : Nat) :
    HandlerResult :=
  match posInt? p.to_canal_id with
  | some n =>
    if !(u.canais.contains n) && !(isAdminRole u) then
      .dropped .channel_unauthorized
    else deptPhase u p msg now
  | none => deptPhase u p msg now

/-- Message handler (`src/server.js` lines 207–303): string type check,
length-at-most-500 check, no-target check (integrality of any target or
admin role), channel then department authorization, then resolution and
emission. -/
def handleMessage (u : Identity) (p : MessagePayload) (now : Nat) : HandlerResult :=
  match p.message with
  | .str msg =>
    if 500 < msg.length then .dropped .too_long
    else if !(isIntV p.to_user_id) && !(isIntV p.to_canal_id) &&
        !(isIntV p.to_departamento_id) && !(isAdminRole u) then .dropped .no_target
    else canalPhase u p msg now
  | _ => .dropped .invalid_type

/-- Side effects the handler can perform on its socket: a
`socket.to(room).emit("message", …)` broadcast — socket.io delivers this
to the room's members *excluding the sending socket* — and a direct
`socket.emit` acknowledgment to the sender only. -/
inductive Effect where
  | broadcastExceptSender (emitter : String) (payload : Outgoing)
  | ackSender (event : String) (payload : Outgoing)

/-- Effects of a handler decision (`src/server.js` lines 289–293): an
accepted message produces exactly one broadcast and one `message:sent`
acknowledgment carrying the same payload; a dropped one produces nothing
(nothing is emitted and the connection is left open). -/
def handlerEffects : HandlerResult → List Effect
  | .dropped _ => []
  | .sent e pl => [.broadcastExceptSender e pl, .ackSender "message:sent" pl]

/-- A connection: socket id plus the rooms it has joined. -/
structure Conn where
  sid : Nat
  rooms : List String

/-- Connections reached by a `socket.to(emitter)` broadcast issued by
`sender`: every connection in the room except the sender itself (socket.io
room-emission semantics). -/
def broadcastRecipients (conns : List Conn) (sender : Nat) (emitter : String) :
    List Conn :=
  conns.filter (fun c => c.sid != sender && c.rooms.contains emitter)

/-- Payloads of the `message:sent` acknowledgments among a list of
effects. -/
def ackPayloads (effs : List Effect) : List Outgoing :=
  effs.filterMap (fun e => match e with
    | .ackSender ev pl => if ev = "message:sent" then some pl else none
    | _ => none)

theorem isAdminRole_iff (u : Identity) : isAdminRole u = true ↔ u.role = .str "admin" := by
  unfold isAdminRole
  cases u.role <;> simp

theorem posInt?_eq_some {v : JsValue} {n : Int} :
    posInt? v = some n ↔ v = .int n ∧ 0 < n := by
  cases v <;> simp only [posInt?]
  case int m =>
    constructor
    · intro h
      split at h
      · next hm =>
        injection h with h
        subst h
        exact ⟨rfl, hm⟩
      · exact absurd h (by simp)
    · rintro ⟨heq, hpos⟩
      injection heq with heq
      subst heq
      rw [if_pos hpos]
  all_goals simp

theorem posInt?_eq_none {v : JsValue} :
    posInt? v = none ↔ ∀ n : Int, v = .int n → n ≤ 0 := by
  cases v <;> simp only [posInt?]
  case int m =>
    constructor
    · intro h n heq
      injection heq with heq
      subst heq
      by_contra hpos
      rw [if_pos (by omega)] at h
      exact absurd h (by simp)
    · intro h
      rw [if_neg (by have := h m rfl; omega)]
  all_goals simp

theorem resolvePhase_sent_inv {u : Identity} {p : MessagePayload} {msg : String}
    {now : Nat} {e : String} {pl : Outgoing}
    (h : resolvePhase u p msg now = .sent e pl) :
    resolveEmitter u p = some e ∧ pl = Outgoing.mk u.id msg now := by
  cases hr : resolveEmitter u p with
  | none =>
    simp only [resolvePhase, hr] at h
    exact absurd h (by simp)
  | some x =>
    simp only [resolvePhase, hr] at h
    injection h with h1 h2
    exact ⟨by rw [h1], h2.symm⟩

theorem deptPhase_sent_inv {u : Identity} {p : MessagePayload} {msg : String}
    {now : Nat} {e : String} {pl : Outgoing}
    (h : deptPhase u p msg now = .sent e pl) :
    (∀ n, posInt? p.to_departamento_id = some n →
      u.departamentos.contains n = true ∨ isAdminRole u = true) ∧
    resolvePhase u p msg now = .sent e pl := by
  cases hd : posInt? p.to_departamento_id with
  | none =>
    simp only [deptPhase, hd] at h
    exact ⟨by simp, h⟩
  | some n =>
    simp only [deptPhase, hd] at h
    split at h
    · exact absurd h (by simp)
    · next hcond =>
      refine ⟨?_, h⟩
      intro m hm
      injection hm with hme
      subst hme
      cases hcont : u.departamentos.contains n
      · cases hadm : isAdminRole u
        · exact absurd (by rw [hcont, hadm]; rfl) hcond
        · exact Or.inr rfl
      · exact Or.inl rfl

theorem canalPhase_sent_inv {u : Identity} {p : MessagePayload} {msg : String}
    {now : Nat} {e : String} {pl : Outgoing}
    (h : canalPhase u p msg now = .sent e pl) :
    (∀ n, posInt? p.to_canal_id = some n →
      u.canais.contains n = true ∨ isAdminRole u = true) ∧
    deptPhase u p msg now = .sent e pl := by
  cases hc : posInt? p.to_canal_id with
  | none =>
    simp only [canalPhase, hc] at h
    exact ⟨by simp, h⟩
  | some n =>
    simp only [canalPhase, hc] at h
    split at h
    · exact absurd h (by simp)
    · next hcond =>
      refine ⟨?_, h⟩
      intro m hm
      injection hm with hme
      subst hme
      cases hcont : u.canais.contains n
      · cases hadm : isAdminRole u
        · exact absurd (by rw [hcont, hadm]; rfl) hcond
        · exact Or.inr rfl
      · exact Or.inl rfl

theorem handleMessage_sent_inv {u : Identity} {p : MessagePayload} {now : Nat}
    {e : String} {pl : Outgoing}
    (h : handleMessage u p now = .sent e pl) :
    ∃ msg, p.message = .str msg ∧ msg.length ≤ 500 ∧
      canalPhase u p msg now = .sent e pl := by
  cases hm : p.message with
  | str msg =>
    simp only [handleMessage, hm] at h
    split at h
    · exact absurd h (by simp)
    · next hlen =>
      split at h
      · exact absurd h (by simp)
      · exact ⟨msg, rfl, by omega, h⟩
  | undef => simp only [handleMessage, hm] at h; exact absurd h (by simp)
  | nullv => simp only [handleMessage, hm] at h; exact absurd h (by simp)
  | bool b => simp only [handleMessage, hm] at h; exact absurd h (by simp)
  | int n => simp only [handleMessage, hm] at h; exact absurd h (by simp)
  | arr xs => simp only [handleMessage, hm] at h; exact absurd h (by simp)

theorem handleMessage_str (u : Identity) (p : MessagePayload) (now : Nat) (msg : String)
    (hm : p.message = .str msg) (hlen : ¬ 500 < msg.length)
    (htar : (isIntV p.to_user_id || isIntV p.to_canal_id ||
      isIntV p.to_departamento_id || isAdminRole u) = true) :
    handleMessage u p now = canalPhase u p msg now := by
  simp only [handleMessage, hm]
  rw [if_neg hlen]
  rw [if_neg (by
    cases hA : isIntV p.to_user_id <;> cases hB : isIntV p.to_canal_id <;>
      cases hC : isIntV p.to_departamento_id <;> cases hD : isAdminRole u <;>
      simp_all)]

theorem canalPhase_pass (u : Identity) (p : MessagePayload) (msg : String) (now : Nat)
    (hok : ∀ n, posInt? p.to_canal_id = some n →
      (u.canais.contains n || isAdminRole u) = true) :
    canalPhase u p msg now = deptPhase u p msg now := by
  cases hc : posInt? p.to_canal_id with
  | none => simp only [canalPhase, hc]
  | some n =>
    have hor := hok n hc
    simp only [canalPhase, hc]
    rw [if_neg (by
      cases hcont : u.canais.contains n <;> cases hadm : isAdminRole u <;> simp_all)]

theorem deptPhase_pass (u : Identity) (p : MessagePayload) (msg : String) (now : Nat)
    (hok : ∀ n, posInt? p.to_departamento_id = some n →
      (u.departamentos.contains n || isAdminRole u) = true) :
    deptPhase u p msg now = resolvePhase u p msg now := by
  cases hd : posInt? p.to_departamento_id with
  | none => simp only [deptPhase, hd]
  | some n =>
    have hor := hok n hd
    simp only [deptPhase, hd]
    rw [if_neg (by
      cases hcont : u.departamentos.contains n <;> cases hadm : isAdminRole u <;> simp_all)]

theorem canalPhase_denied (u : Identity) (p : MessagePayload) (msg : String) (now : Nat)
    (n : Int) (hc : posInt? p.to_canal_id = some n)
    (hmem : u.canais.contains n = false) (hadm : isAdminRole u = false) :
    canalPhase u p msg now = .dropped .channel_unauthorized := by
  simp only [canalPhase, hc]
  rw [if_pos (by rw [hmem, hadm]; rfl)]

theorem deptPhase_denied (u : Identity) (p : MessagePayload) (msg : String) (now : Nat)
    (n : Int) (hd : posInt? p.to_departamento_id = some n)
    (hmem : u.departamentos.contains n = false) (hadm : isAdminRole u = false) :
    deptPhase u p msg now = .dropped .department_unauthorized := by
  simp only [deptPhase, hd]
  rw [if_pos (by rw [hmem, hadm]; rfl)]

/-- C2 (confirmed): when a positive-integer channel target is present the
request is delivered only if the sender's channel set contains that id or
the sender's role is the string `"admin"`, and likewise for department
targets against the department set; on denial the single request is
silently dropped — the handler returns before any broadcast and before
the `message:sent` acknowledgment, emitting nothing, and nothing closes
the connection. -/
theorem channel_dept_authorization (u : Identity) (p : MessagePayload) (now : Nat) :
    (∀ e pl, handleMessage u p now = .sent e pl →
      (∀ n, p.to_canal_id = .int n → 0 < n → (n ∈ u.canais ∨ u.role = .str "admin")) ∧
      (∀ n, p.to_departamento_id = .int n → 0 < n →
        (n ∈ u.departamentos ∨ u.role = .str "admin"))) ∧
    (∀ s n, p.message = .str s → s.length ≤ 500 → p.to_canal_id = .int n → 0 < n →
      n ∉ u.canais → u.role ≠ .str "admin" →
      handleMessage u p now = .dropped .channel_unauthorized ∧
      handlerEffects (handleMessage u p now) = []) ∧
    (∀ s n, p.message = .str s → s.length ≤ 500 →
      (∀ m, p.to_canal_id = .int m → 0 < m → m ∈ u.canais) →
      p.to_departamento_id = .int n → 0 < n →
      n ∉ u.departamentos → u.role ≠ .str "admin" →
      handleMessage u p now = .dropped .department_unauthorized ∧
      handlerEffects (handleMessage u p now) = []) := by
  refine ⟨?_, ?_, ?_⟩
  · intro e pl hsent
    obtain ⟨msg, hm, hlen, hcp⟩ := handleMessage_sent_inv hsent
    obtain ⟨hcanal, hdp⟩ := canalPhase_sent_inv hcp
    obtain ⟨hdept, -⟩ := deptPhase_sent_inv hdp
    constructor
    · intro n hcn hpos
      rcases hcanal n (posInt?_eq_some.mpr ⟨hcn, hpos⟩) with hmem | hadm
      · exact Or.inl (by simpa using hmem)
      · exact Or.inr ((isAdminRole_iff u).mp hadm)
    · intro n hdn hpos
      rcases hdept n (posInt?_eq_some.mpr ⟨hdn, hpos⟩) with hmem | hadm
      · exact Or.inl (by simpa using hmem)
      · exact Or.inr ((isAdminRole_iff u).mp hadm)
  · intro s n hm hlen hcn hpos hnmem hnadm
    have hcpos : posInt? p.to_canal_id = some n := posInt?_eq_some.mpr ⟨hcn, hpos⟩
    have htar : (isIntV p.to_user_id || isIntV p.to_canal_id ||
        isIntV p.to_departamento_id || isAdminRole u) = true := by
      rw [hcn]
      simp [isIntV]
    have hstep := handleMessage_str u p now s hm (by omega) htar
    have hmemf : u.canais.contains n = false := by
      cases hcont : u.canais.contains n
      · rfl
      · exact absurd (by simpa using hcont) hnmem
    have hadmf : isAdminRole u = false := by
      cases hadm : isAdminRole u
      · rfl
      · exact absurd ((isAdminRole_iff u).mp hadm) hnadm
    have hh : handleMessage u p now = .dropped .channel_unauthorized := by
      rw [hstep, canalPhase_denied u p s now n hcpos hmemf hadmf]
    exact ⟨hh, by rw [hh]; rfl⟩
  · intro s n hm hlen hcanalok hdn hpos hnmem hnadm
    have hdpos : posInt? p.to_departamento_id = some n := posInt?_eq_some.mpr ⟨hdn, hpos⟩
    have htar : (isIntV p.to_user_id || isIntV p.to_canal_id ||
        isIntV p.to_departamento_id || isAdminRole u) = true := by
      rw [hdn]
      simp [isIntV]
    have hstep := handleMessage_str u p now s hm (by omega) htar
    have hadmf : isAdminRole u = false := by
      cases hadm : isAdminRole u
      · rfl
      · exact absurd ((isAdminRole_iff u).mp hadm) hnadm
    have hcp : canalPhase u p s now = deptPhase u p s now := by
      apply canalPhase_pass
      intro m hcm
      obtain ⟨hceq, hcpos2⟩ := posInt?_eq_some.mp hcm
      have hcont : u.canais.contains m = true := by
        simpa using hcanalok m hceq hcpos2
      rw [hcont]
      rfl
    have hmemf : u.departamentos.contains n = false := by
      cases hcont : u.departamentos.contains n
      · rfl
      · exact absurd (by simpa using hcont) hnmem
    have hh : handleMessage u p now = .dropped .department_unauthorized := by
      rw [hstep, hcp, deptPhase_denied u p s now n hdpos hmemf hadmf]
    exact ⟨hh, by rw [hh]; rfl⟩

/-- Witness for `channel_dept_authorization`: a `"user"`-role sender with
channel set `[2]` targeting channel `7` is silently denied. -/
theorem channel_dept_authorization_witness :
    handleMessage ⟨.int 1, "acme", .str "user", [2], [], none⟩
      ⟨.undef, .int 7, .undef, .str "hi"⟩ 0 = .dropped .channel_unauthorized ∧
    handlerEffects (handleMessage ⟨.int 1, "acme", .str "user", [2], [], none⟩
      ⟨.undef, .int 7, .undef, .str "hi"⟩ 0) = [] := by
  exact (channel_dept_authorization ⟨.int 1, "acme", .str "user", [2], [], none⟩
    ⟨.undef, .int 7, .undef, .str "hi"⟩ 0).2.1 "hi" 7 rfl (by decide) rfl (by norm_num)
    (by decide)
    (by intro h; injection h with h2; exact absurd h2 (by decide))

theorem canalPhase_ne_validation (u : Identity) (p : MessagePayload) (msg : String)
    (now : Nat) :
    canalPhase u p msg now ≠ .dropped .too_long ∧
    canalPhase u p msg now ≠ .dropped .invalid_type := by
  unfold canalPhase deptPhase resolvePhase
  constructor <;>
  · intro hcontra
    repeat' split at hcontra
    all_goals simp at hcontra

/-- C5 (confirmed): the string-type and length checks run before any
target or authorization check — a non-string or over-long message is
dropped with no effects whatever the target fields and the sender grants
are — and a message of exactly 500 characters passes the length check
(the handler never drops it for type or length). -/
theorem message_validation_first (u : Identity) (p : MessagePayload) (now : Nat) :
    ((∀ s, p.message ≠ .str s) →
      handleMessage u p now = .dropped .invalid_type ∧
      handlerEffects (handleMessage u p now) = []) ∧
    (∀ s, p.message = .str s → 500 < s.length →
      handleMessage u p now = .dropped .too_long ∧
      handlerEffects (handleMessage u p now) = []) ∧
    (∀ s, p.message = .str s → s.length = 500 →
      handleMessage u p now ≠ .dropped .too_long ∧
      handleMessage u p now ≠ .dropped .invalid_type) := by
  refine ⟨?_, ?_, ?_⟩
  · intro hns
    cases hm : p.message with
    | str s => exact absurd hm (hns s)
    | undef =>
      have hh : handleMessage u p now = .dropped .invalid_type := by
        simp [handleMessage, hm]
      exact ⟨hh, by rw [hh]; rfl⟩
    | nullv =>
      have hh : handleMessage u p now = .dropped .invalid_type := by
        simp [handleMessage, hm]
      exact ⟨hh, by rw [hh]; rfl⟩
    | bool b =>
      have hh : handleMessage u p now = .dropped .invalid_type := by
        simp [handleMessage, hm]
      exact ⟨hh, by rw [hh]; rfl⟩
    | int n =>
      have hh : handleMessage u p now = .dropped .invalid_type := by
        simp [handleMessage, hm]
      exact ⟨hh, by rw [hh]; rfl⟩
    | arr xs =>
      have hh : handleMessage u p now = .dropped .invalid_type := by
        simp [handleMessage, hm]
      exact ⟨hh, by rw [hh]; rfl⟩
  · intro s hm hlen
    have hh : handleMessage u p now = .dropped .too_long := by
      simp only [handleMessage, hm]
      rw [if_pos hlen]
    exact ⟨hh, by rw [hh]; rfl⟩
  · intro s hm hlen
    have hnot : ¬ 500 < s.length := by omega
    simp only [handleMessage, hm]
    rw [if_neg hnot]
    split
    · constructor <;> simp
    · exact canalPhase_ne_validation u p s now

/-- Witness for `message_validation_first`: an integer message is dropped
as invalid whatever the target is, and a message of exactly 500
characters is not dropped by the type or length checks. -/
theorem message_validation_first_witness :
    (handleMessage ⟨.int 1, "acme", .str "user", [], [], none⟩
      ⟨.int 2, .undef, .undef, .int 3⟩ 0 = .dropped .invalid_type ∧
     handlerEffects (handleMessage ⟨.int 1, "acme", .str "user", [], [], none⟩
      ⟨.int 2, .undef, .undef, .int 3⟩ 0) = []) ∧
    (handleMessage ⟨.int 1, "acme", .str "user", [], [], none⟩
      ⟨.int 2, .undef, .undef, .str (String.mk (List.replicate 500 'a'))⟩ 0 ≠
        .dropped .too_long ∧
     handleMessage ⟨.int 1, "acme", .str "user", [], [], none⟩
      ⟨.int 2, .undef, .undef, .str (String.mk (List.replicate 500 'a'))⟩ 0 ≠
        .dropped .invalid_type) := by
  constructor
  · exact (message_validation_first ⟨.int 1, "acme", .str "user", [], [], none⟩
      ⟨.int 2, .undef, .undef, .int 3⟩ 0).1
      (by intro s h; exact JsValue.noConfusion h)
  · exact (message_validation_first ⟨.int 1, "acme", .str "user", [], [], none⟩
      ⟨.int 2, .undef, .undef, .str (String.mk (List.replicate 500 'a'))⟩ 0).2.2
      (String.mk (List.replicate 500 'a')) rfl
      (by rw [String.length_mk, List.length_replicate])

/-- C6 (confirmed): for a request that passes validation (string message
of length at most 500, some integer target or admin sender, channel and
department authorization satisfied), destination resolution follows the
fixed priority user > channel > department > tenant-broadcast on the
positive-integer targets, the admin tenant-wide broadcast applying only
when no target resolves; when nothing matches the request is dropped with
no delivery and no acknowledgment. -/
theorem destination_priority (u : Identity) (p : MessagePayload) (now : Nat)
    (s : String) (hm : p.message = .str s) (hlen : s.length ≤ 500)
    (hcanal : ∀ n, p.to_canal_id = .int n → 0 < n →
      (n ∈ u.canais ∨ u.role = .str "admin"))
    (hdept : ∀ n, p.to_departamento_id = .int n → 0 < n →
      (n ∈ u.departamentos ∨ u.role = .str "admin"))
    (htar : isIntV p.to_user_id = true ∨ isIntV p.to_canal_id = true ∨
      isIntV p.to_departamento_id = true ∨ u.role = .str "admin") :
    (∀ n, p.to_user_id = .int n → 0 < n →
      handleMessage u p now =
        .sent (room.user u.tenant (intStr n)) (Outgoing.mk u.id s now)) ∧
    (posInt? p.to_user_id = none → ∀ n, p.to_canal_id = .int n → 0 < n →
      handleMessage u p now =
        .sent (room.canal u.tenant (intStr n)) (Outgoing.mk u.id s now)) ∧
    (posInt? p.to_user_id = none → posInt? p.to_canal_id = none →
      ∀ n, p.to_departamento_id = .int n → 0 < n →
      handleMessage u p now =
        .sent (room.dept u.tenant (intStr n)) (Outgoing.mk u.id s now)) ∧
    (posInt? p.to_user_id = none → posInt? p.to_canal_id = none →
      posInt? p.to_departamento_id = none → u.role = .str "admin" →
      handleMessage u p now =
        .sent (room.tenant u.tenant) (Outgoing.mk u.id s now)) ∧
    (posInt? p.to_user_id = none → posInt? p.to_canal_id = none →
      posInt? p.to_departamento_id = none → u.role ≠ .str "admin" →
      handleMessage u p now = .dropped .no_emitter ∧
      handlerEffects (handleMessage u p now) = []) := by
  have htarb : (isIntV p.to_user_id || isIntV p.to_canal_id ||
      isIntV p.to_departamento_id || isAdminRole u) = true := by
    rcases htar with h | h | h | h
    · rw [h]; rfl
    · rw [h]; simp
    · rw [h]; simp
    · rw [(isAdminRole_iff u).mpr h]; simp
  have hstep := handleMessage_str u p now s hm (by omega) htarb
  have hcp : canalPhase u p s now = deptPhase u p s now := by
    apply canalPhase_pass
    intro m hcm
    obtain ⟨hceq, hcpos⟩ := posInt?_eq_some.mp hcm
    rcases hcanal m hceq hcpos with hmem | hadm
    · have hcont : u.canais.contains m = true := by simpa using hmem
      rw [hcont]
      rfl
    · rw [(isAdminRole_iff u).mpr hadm]
      simp
  have hdp : deptPhase u p s now = resolvePhase u p s now := by
    apply deptPhase_pass
    intro m hdm
    obtain ⟨hdeq, hdpos⟩ := posInt?_eq_some.mp hdm
    rcases hdept m hdeq hdpos with hmem | hadm
    · have hcont : u.departamentos.contains m = true := by simpa using hmem
      rw [hcont]
      rfl
    · rw [(isAdminRole_iff u).mpr hadm]
      simp
  rw [hstep, hcp, hdp]
  refine ⟨?_, ?_, ?_, ?_, ?_⟩
  · intro n hun hpos
    have hu : posInt? p.to_user_id = some n := posInt?_eq_some.mpr ⟨hun, hpos⟩
    simp only [resolvePhase, resolveEmitter, hu]
  · intro hnone n hcn hpos
    have hc : posInt? p.to_canal_id = some n := posInt?_eq_some.mpr ⟨hcn, hpos⟩
    simp only [resolvePhase, resolveEmitter, hnone, hc]
  · intro h1 h2 n hdn hpos
    have hd : posInt? p.to_departamento_id = some n := posInt?_eq_some.mpr ⟨hdn, hpos⟩
    simp only [resolvePhase, resolveEmitter, h1, h2, hd]
  · intro h1 h2 h3 hadm
    simp only [resolvePhase, resolveEmitter, h1, h2, h3]
    rw [if_pos ((isAdminRole_iff u).mpr hadm)]
  · intro h1 h2 h3 hnadm
    have hadmf : isAdminRole u = false := by
      cases ha : isAdminRole u
      · rfl
      · exact absurd ((isAdminRole_iff u).mp ha) hnadm
    have hh : resolvePhase u p s now = .dropped .no_emitter := by
      simp only [resolvePhase, resolveEmitter, h1, h2, h3]
      rw [if_neg (by rw [hadmf]; simp)]
    exact ⟨hh, by rw [hh]; rfl⟩

/-- Witness for `destination_priority`: with no user target, a positive
authorized channel target resolves to the channel room even though a
department target is also present. -/
theorem destination_priority_witness :
    handleMessage ⟨.int 1, "acme", .str "user", [2], [5], none⟩
      ⟨.undef, .int 2, .int 5, .str "hi"⟩ 7 =
      .sent (room.canal "acme" (intStr 2)) (Outgoing.mk (.int 1) "hi" 7) := by
  exact (destination_priority ⟨.int 1, "acme", .str "user", [2], [5], none⟩
    ⟨.undef, .int 2, .int 5, .str "hi"⟩ 7 "hi" rfl (by decide)
    (by intro n h hp; injection h with h2; subst h2; exact Or.inl (by decide))
    (by intro n h hp; injection h with h2; subst h2; exact Or.inl (by decide))
    (Or.inr (Or.inl rfl))).2.1 rfl 2 rfl (by norm_num)

/-- C10 (confirmed): a non-admin sender posting a valid message whose
target fields include an integer but no positive integer passes the
no-target check (it tests only integrality), yet destination resolution
finds nothing and the handler returns silently: no broadcast, no
`message:sent` acknowledgment. -/
theorem nonpositive_target_drop (u : Identity) (p : MessagePayload) (now : Nat)
    (s : String) (hadm : isAdminRole u = false)
    (hm : p.message = .str s) (hlen : s.length ≤ 500)
    (hint : isIntV p.to_user_id = true ∨ isIntV p.to_canal_id = true ∨
      isIntV p.to_departamento_id = true)
    (hu : posInt? p.to_user_id = none) (hc : posInt? p.to_canal_id = none)
    (hd : posInt? p.to_departamento_id = none) :
    handleMessage u p now = .dropped .no_emitter ∧
    handlerEffects (handleMessage u p now) = [] := by
  have htarb : (isIntV p.to_user_id || isIntV p.to_canal_id ||
      isIntV p.to_departamento_id || isAdminRole u) = true := by
    rcases hint with h | h | h
    · rw [h]; rfl
    · rw [h]; simp
    · rw [h]; simp
  have hstep := handleMessage_str u p now s hm (by omega) htarb
  have hcp : canalPhase u p s now = deptPhase u p s now := by
    apply canalPhase_pass
    intro m hm2
    rw [hc] at hm2
    exact absurd hm2 (by simp)
  have hdp : deptPhase u p s now = resolvePhase u p s now := by
    apply deptPhase_pass
    intro m hm2
    rw [hd] at hm2
    exact absurd hm2 (by simp)
  have hh : resolvePhase u p s now = .dropped .no_emitter := by
    simp only [resolvePhase, resolveEmitter, hu, hc, hd]
    rw [if_neg (by rw [hadm]; simp)]
  rw [hstep, hcp, hdp]
  exact ⟨hh, by rw [hh]; rfl⟩

/-- Witness for `nonpositive_target_drop`: `to_user_id: 0` from a
`"user"`-role sender passes the no-target check but resolves to nothing
and is silently dropped. -/
theorem nonpositive_target_drop_witness :
    handleMessage ⟨.int 1, "acme", .str "user", [], [], none⟩
      ⟨.int 0, .undef, .undef, .str "hi"⟩ 0 = .dropped .no_emitter ∧
    handlerEffects (handleMessage ⟨.int 1, "acme", .str "user", [], [], none⟩
      ⟨.int 0, .undef, .undef, .str "hi"⟩ 0) = [] := by
  exact nonpositive_target_drop ⟨.int 1, "acme", .str "user", [], [], none⟩
    ⟨.int 0, .undef, .undef, .str "hi"⟩ 0 "hi" rfl rfl (by decide)
    (Or.inl rfl) rfl rfl rfl

/-- C4 (confirmed): for every accepted routing request the outbound
payload is `{from_user_id, message, timestamp}` built from the sender's
identity, validated message and current time; the handler performs
exactly one `socket.to(destination)` broadcast — delivered by socket.io
to every connection subscribed to the destination room *except the
sending connection*, which is never among the recipients — and exactly
one `message:sent` acknowledgment to the sender carrying the same
payload. -/
theorem broadcast_excludes_sender (u : Identity) (p : MessagePayload) (now : Nat)
    (conns : List Conn) (sender : Nat) : ∀ e pl,
    handleMessage u p now = .sent e pl →
      (pl.from_user_id = u.id ∧ p.message = .str pl.message ∧ pl.timestamp = now) ∧
      handlerEffects (handleMessage u p now) =
        [.broadcastExceptSender e pl, .ackSender "message:sent" pl] ∧
      ackPayloads (handlerEffects (handleMessage u p now)) = [pl] ∧
      (∀ c ∈ broadcastRecipients conns sender e, c.sid ≠ sender) ∧
      (∀ c, c ∈ broadcastRecipients conns sender e ↔
        (c ∈ conns ∧ c.sid ≠ sender ∧ e ∈ c.rooms)) := by
  intro e pl hsent
  obtain ⟨msg, hm, hlen, hcp⟩ := handleMessage_sent_inv hsent
  obtain ⟨-, hdp⟩ := canalPhase_sent_inv hcp
  obtain ⟨-, hrp⟩ := deptPhase_sent_inv hdp
  obtain ⟨-, hpl⟩ := resolvePhase_sent_inv hrp
  subst hpl
  refine ⟨⟨rfl, hm, rfl⟩, by rw [hsent]; rfl, by rw [hsent]; rfl, ?_, ?_⟩
  · intro c hcmem
    have hfil := List.mem_filter.mp hcmem
    have hb := hfil.2
    simp only [Bool.and_eq_true, bne_iff_ne, ne_eq] at hb
    exact hb.1
  · intro c
    constructor
    · intro hcmem
      have hfil := List.mem_filter.mp hcmem
      have hb := hfil.2
      simp only [Bool.and_eq_true, bne_iff_ne, ne_eq] at hb
      exact ⟨hfil.1, hb.1, by simpa using hb.2⟩
    · rintro ⟨hin, hne, hroom⟩
      refine List.mem_filter.mpr ⟨hin, ?_⟩
      simp only [Bool.and_eq_true, bne_iff_ne, ne_eq]
      exact ⟨hne, by simpa using hroom⟩

/-- Witness for `broadcast_excludes_sender`: user 1 sends to user 2; the
acknowledgment list is exactly one `message:sent` payload, and among two
connections only the non-sender subscribed to the destination room is a
broadcast recipient. -/
theorem broadcast_excludes_sender_witness :
    handleMessage ⟨.int 1, "acme", .str "user", [], [], none⟩
      ⟨.int 2, .undef, .undef, .str "yo"⟩ 7 =
      .sent (room.user "acme" (intStr 2)) (Outgoing.mk (.int 1) "yo" 7) ∧
    ackPayloads (handlerEffects (handleMessage ⟨.int 1, "acme", .str "user", [], [], none⟩
      ⟨.int 2, .undef, .undef, .str "yo"⟩ 7)) = [Outgoing.mk (.int 1) "yo" 7] ∧
    (∀ c ∈ broadcastRecipients
        [Conn.mk 1 [room.user "acme" (intStr 1)], Conn.mk 2 [room.user "acme" (intStr 2)]]
        1 (room.user "acme" (intStr 2)), c.sid ≠ 1) := by
  refine ⟨rfl, ?_, ?_⟩
  · exact (broadcast_excludes_sender ⟨.int 1, "acme", .str "user", [], [], none⟩
      ⟨.int 2, .undef, .undef, .str "yo"⟩ 7 [] 1
      (room.user "acme" (intStr 2)) (Outgoing.mk (.int 1) "yo" 7) rfl).2.2.1
  · exact (broadcast_excludes_sender ⟨.int 1, "acme", .str "user", [], [], none⟩
      ⟨.int 2, .undef, .undef, .str "yo"⟩ 7
      [Conn.mk 1 [room.user "acme" (intStr 1)], Conn.mk 2 [room.user "acme" (intStr 2)]]
      1 (room.user "acme" (intStr 2)) (Outgoing.mk (.int 1) "yo" 7) rfl).2.2.2.1

end SafeSocket
